import Mathlib

/-!
Verification of the row-classification, duplicate-count, file-loading and
chart-selection behaviour of `anom_app.py` (single-file Streamlit data-anomaly
analyser).  The pandas operations the script delegates to are embedded as
executable Lean functions with the semantics pandas documents for them:
`DataFrame.duplicated` (with `keep=False` and with the default `keep='first'`),
boolean-mask row selection `df[mask]`, `groupby(...).size()` with its default
`dropna=True`, `sort_values(ascending=False)`, and `Series.nunique()`.
-/

namespace AnomApp

/-- A cell value of the in-memory table (a pandas `DataFrame` cell): numeric,
text, boolean, or the missing/null marker (NaN).  pandas `duplicated` hashes
rows, under which missing values compare equal to each other, so here `na = na`
holds by ordinary equality. -/
inductive Value where
  | int : Int → Value
  | str : String → Value
  | boolean : Bool → Value
  | na : Value
deriving DecidableEq, Repr

/-- The loaded table (`df` in `anom_app.py`): ordered column names plus rows in
original order, each row listing its values in column order. -/
structure Table where
  cols : List String
  rows : List (List Value)
deriving DecidableEq, Repr

/-- Projection of one row onto the selected columns, in selection order
(the row of `df[selected_cols]` corresponding to a row of `df`). -/
def projRow (cols sel : List String) (row : List Value) : List Value :=
  sel.map (fun c => row.getD (cols.indexOf c) Value.na)

/-- All rows of `df[selected_cols]` (line 170 of `anom_app.py`): every row of
the table projected onto the selected columns, in original row order. -/
def selectCols (t : Table) (sel : List String) : List (List Value) :=
  t.rows.map (projRow t.cols sel)

/-- Boolean-mask row selection `df[mask]`: keeps, in order, the rows whose mask
entry is `true`. -/
def filterMask : List α → List Bool → List α
  | [], _ => []
  | _, [] => []
  | a :: as, b :: bs => if b then a :: filterMask as bs else filterMask as bs

/-- The mask `df[selected_cols].duplicated(keep=False)` (line 170): entry `i` is `true`
iff row `i`'s projection onto the selected columns occurs at least twice in the
whole table. -/
def isDuplicateMask (t : Table) (sel : List String) : List Bool :=
  (selectCols t sel).map (fun k => decide (2 ≤ (selectCols t sel).count k))

/-- The assignment `unique_rows = df[~is_duplicate]` (line 171): whole original rows, in
original order, whose projection occurs exactly once. -/
def uniqueRows (t : Table) (sel : List String) : List (List Value) :=
  filterMask t.rows ((isDuplicateMask t sel).map not)

/-- The assignment `duplicate_rows = df[is_duplicate]` (line 172): whole original rows, in
original order, whose projection occurs at least twice. -/
def duplicateRows (t : Table) (sel : List String) : List (List Value) :=
  filterMask t.rows (isDuplicateMask t sel)

/-- Rows paired with their positional index, modelling the pandas row index
that `df[mask]` carries along. -/
def withIdx (l : List α) : List (Nat × α) :=
  (List.range l.length).zip l

/-- The rows of `unique_rows` together with the original row index of each kept row. -/
def uniqueRowsIdx (t : Table) (sel : List String) : List (Nat × List Value) :=
  filterMask (withIdx t.rows) ((isDuplicateMask t sel).map not)

/-- The rows of `duplicate_rows` together with the original row index of each kept row. -/
def duplicateRowsIdx (t : Table) (sel : List String) : List (Nat × List Value) :=
  filterMask (withIdx t.rows) (isDuplicateMask t sel)

/-- Helper for `duplicated` with the default `keep='first'`: a key is marked
`true` iff it already occurred among the keys seen so far. -/
def dupFirstAux [DecidableEq α] : List α → List α → List Bool
  | _, [] => []
  | seen, k :: rest => decide (k ∈ seen) :: dupFirstAux (k :: seen) rest

/-- The mask `df.duplicated()` with the default `keep='first'`: entry `i` is `true` iff
some earlier row is identical to row `i`. -/
def duplicatedKeepFirst [DecidableEq α] (keys : List α) : List Bool :=
  dupFirstAux [] keys

/-- The metric `df.duplicated().sum()` — the whole-row duplicate count shown in the
overview (line 60) and in the anomaly summary (line 110). -/
def wholeRowDuplicateCount (t : Table) : Nat :=
  (duplicatedKeepFirst t.rows).count true

/-- The count the spec attributes to the overview metric: the number of rows
whose projection onto all columns occurs two or more times (every member of
each duplicated group counted).  Stated from the spec for comparison with
`wholeRowDuplicateCount`. -/
def allMembersDuplicateCount (t : Table) : Nat :=
  t.rows.countP (fun r => decide (2 ≤ t.rows.count r))

/-- Insertion step of the descending-by-count sort applied to the duplicate
group summary. -/
def insertDesc (p : List Value × Nat) : List (List Value × Nat) → List (List Value × Nat)
  | [] => [p]
  | q :: rest => if q.2 ≤ p.2 then p :: q :: rest else q :: insertDesc p rest

/-- The sort `sort_values('count', ascending=False)` (line 201), realised as an
insertion sort on the count component. -/
def sortDescByCount : List (List Value × Nat) → List (List Value × Nat)
  | [] => []
  | p :: rest => insertDesc p (sortDescByCount rest)

/-- Number of occurrences of one key among the grouped keys (the `size()` of
one `groupby` group). -/
def countKey (keys : List (List Value)) (k : List Value) : Nat :=
  (keys.filter (fun x => decide (x = k))).length

/-- The distinct keys of the `groupby` (each distinct value-combination taken
once). -/
def distinctKeys : List (List Value) → List (List Value)
  | [] => []
  | k :: rest => if k ∈ rest then distinctKeys rest else k :: distinctKeys rest

/-- The frame `df[is_duplicate][selected_cols]` (line 200): the projections of the
duplicate rows onto the selected columns. -/
def dupKeys (t : Table) (sel : List String) : List (List Value) :=
  filterMask (selectCols t sel) (isDuplicateMask t sel)

/-- The keys `groupby` actually groups: pandas `groupby` defaults to
`dropna=True`, so keys containing a missing value are excluded. -/
def validDupKeys (t : Table) (sel : List String) : List (List Value) :=
  (dupKeys t sel).filter (fun k => decide (Value.na ∉ k))

/-- The summary `df[is_duplicate][selected_cols].groupby(selected_cols).size()` followed by
`sort_values('count', ascending=False)` (lines 200-201): one entry per distinct
surviving key, with its occurrence count, sorted by count descending. -/
def dupGroups (t : Table) (sel : List String) : List (List Value × Nat) :=
  sortDescByCount ((distinctKeys (validDupKeys t sel)).map
    (fun k => (k, countKey (validDupKeys t sel) k)))

/-- Total of the `count` column of the duplicate group summary. -/
def sumCounts (gs : List (List Value × Nat)) : Nat :=
  (gs.map Prod.snd).sum

/-- The value `duplicate_analysis` returns to `main` (lines 140, 216, 218):
an empty selection yields the bare 3-tuple `(None, None, False)`; otherwise a
5-tuple, carrying the two row sets and the file names when the button was
clicked. -/
inductive DupResult where
  | skipped : DupResult
  | notExecuted : DupResult
  | executed (uRows dRows : List (List Value)) (uName dName : String) : DupResult
deriving DecidableEq, Repr

/-- The Python tuple length of each `duplicate_analysis` return value. -/
def DupResult.tupleLen : DupResult → Nat
  | .skipped => 3
  | .notExecuted => 5
  | .executed _ _ _ _ => 5

/-- Control flow of `duplicate_analysis` (lines 125-218): warn and return
`(None, None, False)` on an empty selection; otherwise classify when the
button is clicked. -/
def duplicateAnalysis (t : Table) (selectedCols : List String) (buttonClicked : Bool)
    (uName dName : String) : DupResult :=
  if selectedCols.isEmpty then DupResult.skipped
  else if buttonClicked then
    DupResult.executed (uniqueRows t selectedCols) (duplicateRows t selectedCols) uName dName
  else DupResult.notExecuted

/-- How `main` consumes the `duplicate_analysis` result (lines 412-496): a
5-tuple is unpacked into five names; anything else falls into the legacy
branch `unique_combinations, duplicate_combinations = result`, which succeeds
only for a 2-tuple and otherwise raises `ValueError`.  Returns whether the
download section is shown. -/
def mainCombinationsTab (r : DupResult) : Except String Bool :=
  if r.tupleLen = 5 then
    match r with
    | DupResult.executed _ _ _ _ => Except.ok true
    | _ => Except.ok false
  else if r.tupleLen = 2 then Except.ok true
  else Except.error "ValueError: too many values to unpack (expected 2)"

/-- Outcome of one third-party reader call (`pd.read_csv` / `pd.read_excel`):
either a parsed table or an exception, a `UnicodeDecodeError` being
distinguished from every other exception the way the `except` clauses of
`load_data` distinguish them. -/
inductive ReadError where
  | unicodeDecodeErr (msg : String) : ReadError
  | otherErr (msg : String) : ReadError
deriving DecidableEq, Repr

/-- The message interpolated into the returned error string. -/
def ReadError.msg : ReadError → String
  | .unicodeDecodeErr m => m
  | .otherErr m => m

/-- An uploaded file, abstracting the three third-party parser calls of
`load_data` as their outcomes on this file's content. -/
structure UploadedFile where
  name : String
  readCsvUtf8 : Except ReadError Table
  readCsvLatin1 : Except ReadError Table
  readExcel : Except ReadError Table

/-- ASCII lowering of one character: the effect of Python's `str.lower()` on
the characters occurring in a file extension. -/
def lowerChar (c : Char) : Char :=
  if 'A' ≤ c ∧ c ≤ 'Z' then Char.ofNat (c.toNat + 32) else c

/-- The characters after the last dot — the last element of `name.split('.')`
(the whole name when it has no dot), accumulated structurally. -/
def lastDotComponent : List Char → List Char → List Char
  | [], cur => cur.reverse
  | c :: rest, cur =>
    if c = '.' then lastDotComponent rest []
    else lastDotComponent rest (c :: cur)

/-- The expression `uploaded_file.name.split('.')[-1].lower()` (line 33). -/
def fileExtension (name : String) : String :=
  String.mk ((lastDotComponent name.data []).map lowerChar)

/-- Control flow of `load_data` (lines 30-46): dispatch on the extension inside a `try`; a
`UnicodeDecodeError` from the first attempt triggers one Latin-1 retry whose
failure is reported as an encoding-error message; every other exception is
reported as a loading-error message.  An extension that is neither `xlsx` nor
`csv` leaves `df` unassigned, so the final `return df` raises `NameError`,
caught by the generic handler. -/
def loadData (f : UploadedFile) : Except String Table :=
  let ext := fileExtension f.name
  let firstTry : Except ReadError Table :=
    if ext = "xlsx" then f.readExcel
    else if ext = "csv" then f.readCsvUtf8
    else Except.error (ReadError.otherErr "name 'df' is not defined")
  match firstTry with
  | Except.ok df => Except.ok df
  | Except.error (ReadError.unicodeDecodeErr _) =>
    match f.readCsvLatin1 with
    | Except.ok df => Except.ok df
    | Except.error e => Except.error ("Erreur d'encodage: " ++ e.msg)
  | Except.error (ReadError.otherErr m) =>
    Except.error ("Erreur lors du chargement: " ++ m)

/-- pandas dtype tags relevant to the chart-type branch (line 307). -/
inductive Dtype where
  | int64 : Dtype
  | float64 : Dtype
  | obj : Dtype
  | boolean : Dtype
deriving DecidableEq, Repr

/-- One column as the visualization tab sees it: its dtype plus its values. -/
structure Column where
  dtype : Dtype
  values : List Value
deriving DecidableEq, Repr

/-- pandas `Series.nunique()`: number of distinct non-missing values. -/
def nunique (c : Column) : Nat :=
  ((c.values.filter (fun v => decide (v ≠ Value.na))).dedup).length

/-- The test `is_numeric = df[col].dtype in ['int64', 'float64'] and df[col].nunique() > 10`
(line 307). -/
def isNumericChart (c : Column) : Bool :=
  (decide (c.dtype = Dtype.int64) || decide (c.dtype = Dtype.float64))
    && decide (10 < nunique c)

/-- The chart types offered for a column (lines 316-353): the numeric trio when
`is_numeric`, otherwise the categorical pair. -/
def chartOptions (c : Column) : List String :=
  if isNumericChart c then ["Histogramme", "Box Plot", "Violin Plot"]
  else ["Bar Chart", "Pie Chart"]

/-- The worked example of the spec: columns A, B; four rows; three rows share
A = 1. -/
def exTable : Table :=
  { cols := ["A", "B"],
    rows := [[Value.int 1, Value.str "x"], [Value.int 1, Value.str "x"],
             [Value.int 2, Value.str "y"], [Value.int 1, Value.str "z"]] }

/-- Two whole-row-identical rows: one table for the keep-first counterexample. -/
def exPair : Table :=
  { cols := ["A"], rows := [[Value.int 1], [Value.int 1]] }

/-- Two rows that agree (as missing) on column A and differ on B: duplicates of
each other on selection [A], yet dropped by `groupby`'s `dropna`. -/
def exNa : Table :=
  { cols := ["A", "B"],
    rows := [[Value.na, Value.int 1], [Value.na, Value.int 2]] }

theorem length_selectCols (t : Table) (sel : List String) :
    (selectCols t sel).length = t.rows.length := by
  simp [selectCols]

theorem length_isDuplicateMask (t : Table) (sel : List String) :
    (isDuplicateMask t sel).length = t.rows.length := by
  simp [isDuplicateMask, selectCols]

theorem length_withIdx (l : List α) : (withIdx l).length = l.length := by
  simp [withIdx]

theorem getElem_withIdx (l : List α) (i : Nat) (hi : i < l.length)
    (hw : i < (withIdx l).length) : (withIdx l)[i] = (i, l[i]) := by
  simp [withIdx, List.getElem_zip, List.getElem_range]

theorem filterMask_nil (m : List Bool) : filterMask ([] : List α) m = [] := by
  cases m <;> rfl

theorem filterMask_mask_nil (l : List α) : filterMask l ([] : List Bool) = [] := by
  cases l <;> rfl

theorem mem_filterMask {l : List α} {m : List Bool} {x : α} :
    x ∈ filterMask l m ↔
      ∃ i, ∃ hl : i < l.length, ∃ hm : i < m.length, l[i] = x ∧ m[i] = true := by
  induction l generalizing m with
  | nil => simp [filterMask]
  | cons a as ih =>
    cases m with
    | nil => simp [filterMask]
    | cons b bs =>
      cases b with
      | false =>
        rw [show filterMask (a :: as) (false :: bs) = filterMask as bs from rfl, ih]
        constructor
        · rintro ⟨i, hl, hm, hx, hb⟩
          exact ⟨i + 1, Nat.succ_lt_succ hl, Nat.succ_lt_succ hm,
            by simpa using hx, by simpa using hb⟩
        · rintro ⟨i, hl, hm, hx, hb⟩
          cases i with
          | zero => simp at hb
          | succ j =>
            exact ⟨j, Nat.lt_of_succ_lt_succ hl, Nat.lt_of_succ_lt_succ hm,
              by simpa using hx, by simpa using hb⟩
      | true =>
        rw [show filterMask (a :: as) (true :: bs) = a :: filterMask as bs from rfl]
        simp only [List.mem_cons, ih]
        constructor
        · rintro (rfl | ⟨i, hl, hm, hx, hb⟩)
          · exact ⟨0, by simp, by simp, rfl, rfl⟩
          · exact ⟨i + 1, Nat.succ_lt_succ hl, Nat.succ_lt_succ hm,
              by simpa using hx, by simpa using hb⟩
        · rintro ⟨i, hl, hm, hx, hb⟩
          cases i with
          | zero => exact Or.inl (by simpa using hx.symm)
          | succ j =>
            exact Or.inr ⟨j, Nat.lt_of_succ_lt_succ hl, Nat.lt_of_succ_lt_succ hm,
              by simpa using hx, by simpa using hb⟩

theorem filterMask_sublist (l : List α) (m : List Bool) :
    List.Sublist (filterMask l m) l := by
  induction l generalizing m with
  | nil => rw [filterMask_nil]
  | cons a as ih =>
    cases m with
    | nil => exact List.nil_sublist _
    | cons b bs =>
      cases b with
      | true => exact (ih bs).cons₂ a
      | false => exact (ih bs).cons a

theorem length_filterMask_not_add (l : List α) (m : List Bool) (h : m.length = l.length) :
    (filterMask l (m.map not)).length + (filterMask l m).length = l.length := by
  induction l generalizing m with
  | nil => simp [filterMask]
  | cons a as ih =>
    cases m with
    | nil => simp at h
    | cons b bs =>
      have hlen : bs.length = as.length := by simpa using h
      have := ih bs hlen
      cases b with
      | true =>
        show (filterMask as (bs.map not)).length + (a :: filterMask as bs).length
          = as.length + 1
        simp only [List.length_cons]
        omega
      | false =>
        show (a :: filterMask as (bs.map not)).length + (filterMask as bs).length
          = as.length + 1
        simp only [List.length_cons]
        omega

theorem mem_filterMask_withIdx {l : List α} {m : List Bool} (i : Nat) (a : α) :
    (i, a) ∈ filterMask (withIdx l) m ↔
      ∃ hi : i < l.length, l[i] = a ∧ ∃ hm : i < m.length, m[i] = true := by
  rw [mem_filterMask]
  constructor
  · rintro ⟨k, hk, hkm, hval, hb⟩
    have hk' : k < l.length := by simpa [withIdx] using hk
    rw [getElem_withIdx l k hk' hk] at hval
    have hik : k = i := (Prod.mk.injEq _ _ _ _ ▸ hval).1
    subst hik
    exact ⟨hk', (Prod.mk.injEq _ _ _ _ ▸ hval).2, hkm, hb⟩
  · rintro ⟨hi, ha, hm, hb⟩
    have hw : i < (withIdx l).length := by simpa [withIdx] using hi
    exact ⟨i, hw, hm, by rw [getElem_withIdx l i hi hw, ha], hb⟩

theorem two_le_count_getElem_iff [BEq α] [LawfulBEq α] (l : List α) (i : Nat)
    (hi : i < l.length) :
    2 ≤ l.count l[i] ↔ ∃ j, ∃ hj : j < l.length, j ≠ i ∧ l[j] = l[i] := by
  induction l generalizing i with
  | nil => simp at hi
  | cons a as ih =>
    cases i with
    | zero =>
      simp only [List.getElem_cons_zero]
      rw [List.count_cons_self]
      constructor
      · intro h
        have hmem : a ∈ as := List.count_pos_iff.mp (by omega)
        obtain ⟨j, hj, hja⟩ := List.mem_iff_getElem.mp hmem
        exact ⟨j + 1, Nat.succ_lt_succ hj, Nat.succ_ne_zero j, by simpa using hja⟩
      · rintro ⟨j, hj, hne, hja⟩
        cases j with
        | zero => exact absurd rfl hne
        | succ k =>
          have hk : k < as.length := Nat.lt_of_succ_lt_succ hj
          have hmem : a ∈ as := by
            have hka : as[k] = a := by simpa using hja
            exact hka ▸ List.getElem_mem hk
          have := List.count_pos_iff.mpr hmem
          omega
    | succ n =>
      have hn : n < as.length := Nat.lt_of_succ_lt_succ hi
      simp only [List.getElem_cons_succ]
      by_cases hax : as[n] = a
      · constructor
        · intro _
          exact ⟨0, Nat.succ_pos _, (Nat.succ_ne_zero n).symm, by simp [hax]⟩
        · intro _
          have hmem : as[n] ∈ as := List.getElem_mem hn
          have h1 := List.count_pos_iff.mpr hmem
          have hbeq : (a == as[n]) = true := beq_iff_eq.mpr hax.symm
          rw [List.count_cons, hbeq, if_pos rfl]
          omega
      · have hne : (a == as[n]) = false := beq_eq_false_iff_ne.mpr (Ne.symm hax)
        rw [List.count_cons, hne, if_neg Bool.false_ne_true, Nat.add_zero]
        rw [ih n hn]
        constructor
        · rintro ⟨j, hj, hjn, hja⟩
          exact ⟨j + 1, Nat.succ_lt_succ hj, by omega, by simpa using hja⟩
        · rintro ⟨j, hj, hjn, hja⟩
          cases j with
          | zero =>
            have : a = as[n] := by simpa using hja
            exact absurd this.symm hax
          | succ k =>
            exact ⟨k, Nat.lt_of_succ_lt_succ hj, by omega, by simpa using hja⟩

theorem getElem_selectCols (t : Table) (sel : List String) (j : Nat)
    (hj : j < t.rows.length) (hk : j < (selectCols t sel).length) :
    (selectCols t sel)[j] = projRow t.cols sel (t.rows[j]) := by
  simp [selectCols]

theorem isDuplicateMask_true_iff (t : Table) (sel : List String) (i : Nat)
    (hi : i < t.rows.length) (hm : i < (isDuplicateMask t sel).length) :
    (isDuplicateMask t sel)[i] = true ↔
      ∃ j, ∃ hj : j < t.rows.length, j ≠ i ∧
        projRow t.cols sel (t.rows[j]) = projRow t.cols sel (t.rows[i]) := by
  have hkl : (selectCols t sel).length = t.rows.length := length_selectCols t sel
  have hik : i < (selectCols t sel).length := by omega
  have hmask : (isDuplicateMask t sel)[i]
      = decide (2 ≤ (selectCols t sel).count ((selectCols t sel)[i])) := by
    simp only [isDuplicateMask, List.getElem_map]
  rw [hmask, decide_eq_true_eq, two_le_count_getElem_iff _ i hik]
  constructor
  · rintro ⟨j, hj, hne, hjeq⟩
    have hjr : j < t.rows.length := by omega
    refine ⟨j, hjr, hne, ?_⟩
    rw [getElem_selectCols t sel j hjr hj, getElem_selectCols t sel i hi hik] at hjeq
    exact hjeq
  · rintro ⟨j, hj, hne, hjeq⟩
    have hjk : j < (selectCols t sel).length := by omega
    refine ⟨j, hjk, hne, ?_⟩
    rw [getElem_selectCols t sel j hj hjk, getElem_selectCols t sel i hi hik]
    exact hjeq

theorem mem_duplicateRowsIdx_iff (t : Table) (sel : List String) (i : Nat)
    (hi : i < t.rows.length) :
    (i, t.rows[i]) ∈ duplicateRowsIdx t sel ↔
      ∃ j, ∃ hj : j < t.rows.length, j ≠ i ∧
        projRow t.cols sel (t.rows[j]) = projRow t.cols sel (t.rows[i]) := by
  have hm : i < (isDuplicateMask t sel).length := by
    rw [length_isDuplicateMask]; omega
  rw [duplicateRowsIdx, mem_filterMask_withIdx]
  constructor
  · rintro ⟨_, _, _, hmask⟩
    exact (isDuplicateMask_true_iff t sel i hi hm).mp hmask
  · intro h
    exact ⟨hi, rfl, hm, (isDuplicateMask_true_iff t sel i hi hm).mpr h⟩

theorem mem_uniqueRowsIdx_iff (t : Table) (sel : List String) (i : Nat)
    (hi : i < t.rows.length) :
    (i, t.rows[i]) ∈ uniqueRowsIdx t sel ↔
      ¬ ∃ j, ∃ hj : j < t.rows.length, j ≠ i ∧
        projRow t.cols sel (t.rows[j]) = projRow t.cols sel (t.rows[i]) := by
  have hm : i < (isDuplicateMask t sel).length := by
    rw [length_isDuplicateMask]; omega
  have hmn : i < ((isDuplicateMask t sel).map not).length := by
    rw [List.length_map, length_isDuplicateMask]; omega
  rw [uniqueRowsIdx, mem_filterMask_withIdx]
  constructor
  · rintro ⟨_, _, _, hmasknot⟩ h
    have hmask := (isDuplicateMask_true_iff t sel i hi hm).mpr h
    simp only [List.getElem_map, hmask] at hmasknot
    exact Bool.false_ne_true hmasknot
  · intro h
    have hfalse : (isDuplicateMask t sel)[i] = false := by
      cases hb : (isDuplicateMask t sel)[i] with
      | true => exact absurd ((isDuplicateMask_true_iff t sel i hi hm).mp hb) h
      | false => rfl
    refine ⟨hi, rfl, hmn, ?_⟩
    simp only [List.getElem_map, hfalse]
    rfl

/-- C1: with a non-empty selection of existing columns, a row (with its index)
is placed in the duplicate output iff some other row of the table has the same
projection onto the selected columns, and in the unique output iff no other
row does — in particular all members of an equivalence class of size at least
two land in the duplicate output, the first occurrence included. -/
theorem C1_classification_iff (t : Table) (sel : List String) (hsel : sel ≠ [])
    (hsub : ∀ c ∈ sel, c ∈ t.cols) (i : Nat) (hi : i < t.rows.length) :
    ((i, t.rows[i]) ∈ duplicateRowsIdx t sel ↔
      ∃ j, ∃ hj : j < t.rows.length, j ≠ i ∧
        projRow t.cols sel (t.rows[j]) = projRow t.cols sel (t.rows[i])) ∧
    ((i, t.rows[i]) ∈ uniqueRowsIdx t sel ↔
      ¬ ∃ j, ∃ hj : j < t.rows.length, j ≠ i ∧
        projRow t.cols sel (t.rows[j]) = projRow t.cols sel (t.rows[i])) :=
  ⟨mem_duplicateRowsIdx_iff t sel i hi, mem_uniqueRowsIdx_iff t sel i hi⟩

theorem C1_classification_iff_witness :
    (0, [Value.int 1, Value.str "x"]) ∈ duplicateRowsIdx exTable ["A"] :=
  (C1_classification_iff exTable ["A"] (by decide) (by decide) 0 (by decide)).1.mpr
    ⟨1, by decide, by decide, by decide⟩

/-- C2: with a non-empty selection of existing columns, the unique and
duplicate outputs partition the table's rows: their lengths add up to the
table's row count, and no indexed row belongs to both. -/
theorem C2_partition (t : Table) (sel : List String) (hsel : sel ≠ [])
    (hsub : ∀ c ∈ sel, c ∈ t.cols) :
    (uniqueRows t sel).length + (duplicateRows t sel).length = t.rows.length ∧
    ∀ p : Nat × List Value, p ∈ uniqueRowsIdx t sel → p ∉ duplicateRowsIdx t sel := by
  constructor
  · exact length_filterMask_not_add t.rows (isDuplicateMask t sel)
      (length_isDuplicateMask t sel)
  · rintro ⟨i, r⟩ hu hd
    rw [uniqueRowsIdx, mem_filterMask_withIdx] at hu
    rw [duplicateRowsIdx, mem_filterMask_withIdx] at hd
    obtain ⟨hi, _, hmn, hbn⟩ := hu
    obtain ⟨_, _, hm, hb⟩ := hd
    simp only [List.getElem_map, hb] at hbn
    exact Bool.false_ne_true hbn

theorem C2_partition_witness :
    (uniqueRows exTable ["A"]).length + (duplicateRows exTable ["A"]).length
      = exTable.rows.length :=
  (C2_partition exTable ["A"] (by decide) (by decide)).1

/-- C5: two rows whose selected-column values agree position by position —
equal values, or the missing marker on both sides — have equal projections,
and each of them is classified as a duplicate of the other. -/
theorem C5_missing_equal (t : Table) (sel : List String) (hsel : sel ≠ [])
    (hsub : ∀ c ∈ sel, c ∈ t.cols) (i j : Nat) (hi : i < t.rows.length)
    (hj : j < t.rows.length) (hij : i ≠ j)
    (hagree : ∀ c ∈ sel,
      (t.rows[i]).getD (t.cols.indexOf c) Value.na
          = (t.rows[j]).getD (t.cols.indexOf c) Value.na ∨
      ((t.rows[i]).getD (t.cols.indexOf c) Value.na = Value.na ∧
       (t.rows[j]).getD (t.cols.indexOf c) Value.na = Value.na)) :
    (i, t.rows[i]) ∈ duplicateRowsIdx t sel ∧
    (j, t.rows[j]) ∈ duplicateRowsIdx t sel := by
  have hproj : projRow t.cols sel (t.rows[i]) = projRow t.cols sel (t.rows[j]) := by
    unfold projRow
    apply List.map_congr_left
    intro c hc
    rcases hagree c hc with h | ⟨h1, h2⟩
    · exact h
    · rw [h1, h2]
  constructor
  · exact (mem_duplicateRowsIdx_iff t sel i hi).mpr
      ⟨j, hj, Ne.symm hij, hproj.symm⟩
  · exact (mem_duplicateRowsIdx_iff t sel j hj).mpr
      ⟨i, hi, hij, hproj⟩

theorem C5_missing_equal_witness :
    (0, [Value.na, Value.int 1]) ∈ duplicateRowsIdx exNa ["A"] ∧
    (1, [Value.na, Value.int 2]) ∈ duplicateRowsIdx exNa ["A"] :=
  C5_missing_equal exNa ["A"] (by decide) (by decide) 0 1 (by decide) (by decide)
    (by decide) (by decide)

/-- C7: the classification is a pure function whose two outputs are sublists
of the table's rows — whole original rows, in original order, none modified —
and, on a well-formed table, every output row still carries all original
columns. -/
theorem C7_frame (t : Table) (sel : List String) (hsel : sel ≠ [])
    (hsub : ∀ c ∈ sel, c ∈ t.cols)
    (hwf : ∀ r ∈ t.rows, r.length = t.cols.length) :
    List.Sublist (uniqueRows t sel) t.rows ∧
    List.Sublist (duplicateRows t sel) t.rows ∧
    (∀ r ∈ uniqueRows t sel, r.length = t.cols.length) ∧
    (∀ r ∈ duplicateRows t sel, r.length = t.cols.length) := by
  refine ⟨filterMask_sublist _ _, filterMask_sublist _ _, ?_, ?_⟩
  · intro r hr
    exact hwf r ((filterMask_sublist t.rows _).subset hr)
  · intro r hr
    exact hwf r ((filterMask_sublist t.rows _).subset hr)

theorem C7_frame_witness :
    List.Sublist (uniqueRows exTable ["A"]) exTable.rows :=
  (C7_frame exTable ["A"] (by decide) (by decide) (by decide)).1

theorem length_dupFirstAux [DecidableEq α] (seen l : List α) :
    (dupFirstAux seen l).length = l.length := by
  induction l generalizing seen with
  | nil => rfl
  | cons a as ih => simp [dupFirstAux, ih]

theorem dupFirstAux_getElem_iff [DecidableEq α] (seen l : List α) (i : Nat)
    (h : i < (dupFirstAux seen l).length) (hl : i < l.length) :
    (dupFirstAux seen l)[i] = true ↔
      l[i] ∈ seen ∨ ∃ j, ∃ hj : j < l.length, j < i ∧ l[j] = l[i] := by
  induction l generalizing seen i with
  | nil => simp at hl
  | cons a as ih =>
    cases i with
    | zero =>
      show (decide (a ∈ seen) :: dupFirstAux (a :: seen) as)[0] = true ↔ _
      simp only [List.getElem_cons_zero, decide_eq_true_eq]
      constructor
      · exact Or.inl
      · rintro (h | ⟨j, hj, hlt, _⟩)
        · exact h
        · omega
    | succ n =>
      have hn : n < as.length := Nat.lt_of_succ_lt_succ hl
      have hd : n < (dupFirstAux (a :: seen) as).length := by
        rw [length_dupFirstAux]; omega
      show (decide (a ∈ seen) :: dupFirstAux (a :: seen) as)[n + 1] = true ↔ _
      simp only [List.getElem_cons_succ]
      rw [ih (a :: seen) n hd hn]
      simp only [List.mem_cons]
      constructor
      · rintro ((h | h) | ⟨j, hj, hlt, hje⟩)
        · exact Or.inr ⟨0, by omega, by omega, by simpa using h.symm⟩
        · exact Or.inl h
        · exact Or.inr ⟨j + 1, by omega, by omega, by simpa using hje⟩
      · rintro (h | ⟨j, hj, hlt, hje⟩)
        · exact Or.inl (Or.inr h)
        · cases j with
          | zero => exact Or.inl (Or.inl (by simpa using hje.symm))
          | succ k => exact Or.inr ⟨k, by omega, by omega, by simpa using hje⟩

/-- C3 as stated is false: on a table of two identical rows the displayed
metric `df.duplicated().sum()` is 1, while the number of rows whose whole-row
projection occurs at least twice is 2. -/
theorem C3_counterexample :
    wholeRowDuplicateCount exPair = 1 ∧ allMembersDuplicateCount exPair = 2 ∧
    wholeRowDuplicateCount exPair ≠ allMembersDuplicateCount exPair := by decide

/-- C3 amended: the whole-row duplicate count displayed in the overview and
anomaly-summary views is the number of entries `df.duplicated()` marks, and an
entry is marked iff some STRICTLY EARLIER row is identical to it — each
duplicated group contributes its size minus one, the first occurrence is never
counted. -/
theorem C3_keepFirst_amended (t : Table) (i : Nat) (hi : i < t.rows.length)
    (hm : i < (duplicatedKeepFirst t.rows).length) :
    (duplicatedKeepFirst t.rows)[i] = true ↔
      ∃ j, ∃ hj : j < t.rows.length, j < i ∧ t.rows[j] = t.rows[i] := by
  show (dupFirstAux [] t.rows)[i] = true ↔ _
  rw [dupFirstAux_getElem_iff [] t.rows i hm hi]
  simp

theorem C3_keepFirst_amended_witness :
    (duplicatedKeepFirst exPair.rows).getD 1 false = true := by
  have h := (C3_keepFirst_amended exPair 1 (by decide) (by decide)).mpr
    ⟨0, by decide, by decide, by decide⟩
  rw [List.getD_eq_getElem]
  exact h

theorem countKey_cons (a : List Value) (as : List (List Value)) (k : List Value) :
    countKey (a :: as) k = countKey as k + if a = k then 1 else 0 := by
  by_cases h : a = k
  · simp [countKey, List.filter_cons, h]
  · simp [countKey, List.filter_cons, h]

theorem mem_distinctKeys (keys : List (List Value)) (x : List Value) :
    x ∈ distinctKeys keys ↔ x ∈ keys := by
  induction keys with
  | nil => simp [distinctKeys]
  | cons k rest ih =>
    by_cases hk : k ∈ rest
    · rw [show distinctKeys (k :: rest) = distinctKeys rest from by
        simp [distinctKeys, hk]]
      rw [ih]
      simp only [List.mem_cons]
      constructor
      · exact Or.inr
      · rintro (rfl | h)
        · exact hk
        · exact h
    · rw [show distinctKeys (k :: rest) = k :: distinctKeys rest from by
        simp [distinctKeys, hk]]
      simp [ih]

theorem nodup_distinctKeys (keys : List (List Value)) : (distinctKeys keys).Nodup := by
  induction keys with
  | nil => simp [distinctKeys]
  | cons k rest ih =>
    by_cases hk : k ∈ rest
    · rw [show distinctKeys (k :: rest) = distinctKeys rest from by
        simp [distinctKeys, hk]]
      exact ih
    · rw [show distinctKeys (k :: rest) = k :: distinctKeys rest from by
        simp [distinctKeys, hk]]
      exact List.nodup_cons.mpr ⟨fun h => hk ((mem_distinctKeys rest k).mp h), ih⟩

theorem countKey_eq_zero (keys : List (List Value)) (k : List Value)
    (h : k ∉ keys) : countKey keys k = 0 := by
  induction keys with
  | nil => rfl
  | cons a as ih =>
    have h1 : k ∉ as := fun hm => h (List.mem_cons_of_mem a hm)
    have h2 : ¬a = k := fun ha => h (by rw [← ha]; exact List.mem_cons_self a as)
    rw [countKey_cons, ih h1, if_neg h2]

theorem countKey_nodup_mem (dl : List (List Value)) (k : List Value)
    (hnd : dl.Nodup) (hk : k ∈ dl) : countKey dl k = 1 := by
  induction dl with
  | nil => simp at hk
  | cons a as ih =>
    rw [countKey_cons]
    rcases List.mem_cons.mp hk with rfl | hmem
    · rw [countKey_eq_zero as k (List.nodup_cons.mp hnd).1, if_pos rfl]
    · have hne : a ≠ k := by
        rintro rfl
        exact (List.nodup_cons.mp hnd).1 hmem
      rw [ih (List.nodup_cons.mp hnd).2 hmem, if_neg hne]

theorem sum_map_ite_eq (dl : List (List Value)) (a : List Value) :
    (dl.map (fun k => if a = k then (1 : Nat) else 0)).sum = countKey dl a := by
  induction dl with
  | nil => rfl
  | cons b bs ih =>
    rw [List.map_cons, List.sum_cons, ih, countKey_cons]
    by_cases h : a = b
    · rw [if_pos h, if_pos h.symm]
      omega
    · rw [if_neg h, if_neg (fun hh => h hh.symm)]
      omega

theorem sum_countKey_distinctKeys (keys : List (List Value)) :
    ((distinctKeys keys).map (fun k => countKey keys k)).sum = keys.length := by
  induction keys with
  | nil => rfl
  | cons a as ih =>
    have hstep : ((distinctKeys as).map (fun k => countKey (a :: as) k)).sum
        = ((distinctKeys as).map (fun k => countKey as k)).sum
          + ((distinctKeys as).map (fun k => if a = k then (1 : Nat) else 0)).sum := by
      rw [show (distinctKeys as).map (fun k => countKey (a :: as) k)
          = (distinctKeys as).map
            (fun k => countKey as k + if a = k then (1 : Nat) else 0) from
        List.map_congr_left (fun k _ => countKey_cons a as k)]
      exact List.sum_map_add
    by_cases ha : a ∈ as
    · rw [show distinctKeys (a :: as) = distinctKeys as from by
        simp [distinctKeys, ha]]
      rw [hstep, ih, sum_map_ite_eq,
        countKey_nodup_mem _ _ (nodup_distinctKeys as)
          ((mem_distinctKeys as a).mpr ha)]
      simp
    · rw [show distinctKeys (a :: as) = a :: distinctKeys as from by
        simp [distinctKeys, ha]]
      rw [List.map_cons, List.sum_cons, hstep, ih, sum_map_ite_eq,
        countKey_eq_zero _ _ (fun h => ha ((mem_distinctKeys as a).mp h)),
        countKey_cons, countKey_eq_zero as a ha, if_pos rfl]
      simp only [List.length_cons]
      omega

theorem perm_insertDesc (p : List Value × Nat) (l : List (List Value × Nat)) :
    List.Perm (insertDesc p l) (p :: l) := by
  induction l with
  | nil => exact List.Perm.refl _
  | cons q rest ih =>
    by_cases h : q.2 ≤ p.2
    · rw [show insertDesc p (q :: rest) = p :: q :: rest from by
        simp [insertDesc, h]]
    · rw [show insertDesc p (q :: rest) = q :: insertDesc p rest from by
        simp [insertDesc, h]]
      exact (List.Perm.cons q ih).trans (List.Perm.swap p q rest)

theorem perm_sortDescByCount (l : List (List Value × Nat)) :
    List.Perm (sortDescByCount l) l := by
  induction l with
  | nil => exact List.Perm.refl _
  | cons p rest ih =>
    exact (perm_insertDesc p (sortDescByCount rest)).trans (List.Perm.cons p ih)

theorem mem_insertDesc (p x : List Value × Nat) (l : List (List Value × Nat)) :
    x ∈ insertDesc p l ↔ x = p ∨ x ∈ l := by
  induction l with
  | nil => simp [insertDesc]
  | cons q rest ih =>
    by_cases h : q.2 ≤ p.2
    · rw [show insertDesc p (q :: rest) = p :: q :: rest from by
        simp [insertDesc, h]]
      simp only [List.mem_cons]
    · rw [show insertDesc p (q :: rest) = q :: insertDesc p rest from by
        simp [insertDesc, h]]
      simp only [List.mem_cons, ih]
      tauto

theorem pairwise_insertDesc (p : List Value × Nat) (l : List (List Value × Nat))
    (hl : l.Pairwise (fun a b => b.2 ≤ a.2)) :
    (insertDesc p l).Pairwise (fun a b => b.2 ≤ a.2) := by
  induction l with
  | nil => simp [insertDesc]
  | cons q rest ih =>
    rcases List.pairwise_cons.mp hl with ⟨hq, hrest⟩
    by_cases h : q.2 ≤ p.2
    · rw [show insertDesc p (q :: rest) = p :: q :: rest from by
        simp [insertDesc, h]]
      refine List.pairwise_cons.mpr ⟨?_, hl⟩
      intro x hx
      rcases List.mem_cons.mp hx with rfl | hx'
      · exact h
      · exact le_trans (hq x hx') h
    · rw [show insertDesc p (q :: rest) = q :: insertDesc p rest from by
        simp [insertDesc, h]]
      refine List.pairwise_cons.mpr ⟨?_, ih hrest⟩
      intro x hx
      rcases (mem_insertDesc p x rest).mp hx with rfl | hx'
      · omega
      · exact hq x hx'

theorem pairwise_sortDescByCount (l : List (List Value × Nat)) :
    (sortDescByCount l).Pairwise (fun a b => b.2 ≤ a.2) := by
  induction l with
  | nil => simp [sortDescByCount]
  | cons p rest ih => exact pairwise_insertDesc p _ ih

/-- C6: the duplicate group summary is sorted by occurrence count in
descending order (every later entry's count is at most every earlier one's,
hence in particular each consecutive pair is ordered). -/
theorem C6_groups_sorted (t : Table) (sel : List String) (hsel : sel ≠ [])
    (hsub : ∀ c ∈ sel, c ∈ t.cols) :
    (dupGroups t sel).Pairwise (fun a b => b.2 ≤ a.2) := by
  unfold dupGroups
  exact pairwise_sortDescByCount _

theorem C6_groups_sorted_witness :
    (dupGroups exTable ["A"]).Pairwise (fun a b => b.2 ≤ a.2) :=
  C6_groups_sorted exTable ["A"] (by decide) (by decide)

theorem sumCounts_sortDescByCount (l : List (List Value × Nat)) :
    sumCounts (sortDescByCount l) = sumCounts l :=
  List.Perm.sum_eq (List.Perm.map Prod.snd (perm_sortDescByCount l))

theorem filterMask_map (f : α → β) (l : List α) (m : List Bool) :
    filterMask (l.map f) m = (filterMask l m).map f := by
  induction l generalizing m with
  | nil => simp [filterMask_nil]
  | cons a as ih =>
    cases m with
    | nil => simp [filterMask_mask_nil]
    | cons b bs =>
      cases b with
      | true =>
        show f a :: filterMask (as.map f) bs = (a :: filterMask as bs).map f
        rw [List.map_cons, ih]
      | false =>
        show filterMask (as.map f) bs = (filterMask as bs).map f
        exact ih bs

/-- C4 as stated is false: on a table whose two rows both carry the missing
marker in the selected column, both rows are classified duplicates, but
`groupby`'s `dropna` leaves the summary empty, so the counts sum to 0 while
`duplicateRows` has 2 rows. -/
theorem C4_counterexample :
    sumCounts (dupGroups exNa ["A"]) = 0 ∧ (duplicateRows exNa ["A"]).length = 2 ∧
    sumCounts (dupGroups exNa ["A"]) ≠ (duplicateRows exNa ["A"]).length := by decide

/-- C4 amended: the per-group counts of the duplicate group summary sum to the
number of duplicate rows whose projection onto the selected columns contains
no missing value; duplicate rows with a missing value in a selected column are
dropped from the summary by `groupby`'s default `dropna=True`. -/
theorem C4_summary_sum (t : Table) (sel : List String) (hsel : sel ≠ [])
    (hsub : ∀ c ∈ sel, c ∈ t.cols) :
    sumCounts (dupGroups t sel) =
      (((duplicateRows t sel).map (projRow t.cols sel)).filter
        (fun k => decide (Value.na ∉ k))).length := by
  unfold dupGroups
  rw [sumCounts_sortDescByCount]
  have hsum : sumCounts ((distinctKeys (validDupKeys t sel)).map
      (fun k => (k, countKey (validDupKeys t sel) k)))
      = (validDupKeys t sel).length := by
    unfold sumCounts
    rw [List.map_map]
    exact sum_countKey_distinctKeys (validDupKeys t sel)
  rw [hsum]
  unfold validDupKeys dupKeys duplicateRows
  rw [show selectCols t sel = t.rows.map (projRow t.cols sel) from rfl,
    filterMask_map]

theorem C4_summary_sum_witness :
    sumCounts (dupGroups exTable ["A"]) =
      (((duplicateRows exTable ["A"]).map (projRow exTable.cols ["A"])).filter
        (fun k => decide (Value.na ∉ k))).length :=
  C4_summary_sum exTable ["A"] (by decide) (by decide)

/-- C8 is a code bug in `main`, not the graceful skip the spec intends: on an
empty selection `duplicate_analysis` warns and returns the 3-tuple
`(None, None, False)` (line 140), but `main`'s length-5 check fails and its
legacy branch unpacks the 3-tuple into two variables (line 462), raising
`ValueError` — the run ends in an uncaught exception rather than a quiet
skip. -/
theorem C8_empty_selection_bug :
    duplicateAnalysis exTable [] true "u" "d" = DupResult.skipped ∧
    mainCombinationsTab (duplicateAnalysis exTable [] true "u" "d") =
      Except.error "ValueError: too many values to unpack (expected 2)" :=
  ⟨rfl, rfl⟩

/-- C9: for a file whose extension is `csv`, `load_data` uses the UTF-8 parse
when it succeeds; exactly a `UnicodeDecodeError` triggers the single Latin-1
retry, whose own outcome decides the result; any other first-attempt failure
is reported directly without a retry.  Every branch returns a value — the
function never lets an exception escape. -/
theorem C9_csv_fallback (f : UploadedFile) (hext : fileExtension f.name = "csv") :
    (∀ df, f.readCsvUtf8 = Except.ok df → loadData f = Except.ok df) ∧
    (∀ m df, f.readCsvUtf8 = Except.error (ReadError.unicodeDecodeErr m) →
      f.readCsvLatin1 = Except.ok df → loadData f = Except.ok df) ∧
    (∀ m e, f.readCsvUtf8 = Except.error (ReadError.unicodeDecodeErr m) →
      f.readCsvLatin1 = Except.error e →
      loadData f = Except.error ("Erreur d'encodage: " ++ e.msg)) ∧
    (∀ m, f.readCsvUtf8 = Except.error (ReadError.otherErr m) →
      loadData f = Except.error ("Erreur lors du chargement: " ++ m)) := by
  have hx : ¬ fileExtension f.name = "xlsx" := by rw [hext]; decide
  refine ⟨?_, ?_, ?_, ?_⟩
  · intro df h
    simp [loadData, hext, hx, h]
  · intro m df h h2
    simp [loadData, hext, hx, h, h2]
  · intro m e h h2
    simp [loadData, hext, hx, h, h2]
  · intro m h
    simp [loadData, hext, hx, h]

/-- A `.csv` upload whose UTF-8 parse fails with a decode error and whose
Latin-1 parse succeeds. -/
def exFile : UploadedFile :=
  { name := "data.csv",
    readCsvUtf8 := Except.error (ReadError.unicodeDecodeErr "invalid start byte"),
    readCsvLatin1 := Except.ok exTable,
    readExcel := Except.error (ReadError.otherErr "not a spreadsheet") }

theorem C9_csv_fallback_witness : loadData exFile = Except.ok exTable := by
  have h := (C9_csv_fallback exFile (by decide)).2.1 "invalid start byte" exTable rfl rfl
  exact h

theorem isNumericChart_iff (c : Column) :
    isNumericChart c = true ↔
      ((c.dtype = Dtype.int64 ∨ c.dtype = Dtype.float64) ∧ 10 < nunique c) := by
  simp [isNumericChart]

/-- C10: the visualization tab offers the numeric chart trio (histogram, box
plot, violin plot) for a column iff its dtype is int64 or float64 AND it has
more than 10 distinct values; otherwise — including a numeric column with 10
or fewer distinct values — it offers the categorical pair (bar chart, pie
chart). -/
theorem C10_chart_choice (c : Column) :
    (chartOptions c = ["Histogramme", "Box Plot", "Violin Plot"] ↔
      ((c.dtype = Dtype.int64 ∨ c.dtype = Dtype.float64) ∧ 10 < nunique c)) ∧
    (chartOptions c = ["Bar Chart", "Pie Chart"] ↔
      ¬ ((c.dtype = Dtype.int64 ∨ c.dtype = Dtype.float64) ∧ 10 < nunique c)) := by
  have hiff := isNumericChart_iff c
  cases hb : isNumericChart c with
  | true =>
    have hp := hiff.mp hb
    constructor
    · simp [chartOptions, hb, hp]
    · simp [chartOptions, hb, hp]
  | false =>
    have hp : ¬ ((c.dtype = Dtype.int64 ∨ c.dtype = Dtype.float64) ∧ 10 < nunique c) :=
      fun h => Bool.false_ne_true (hb.symm.trans (hiff.mpr h))
    constructor
    · simp [chartOptions, hb, hp]
    · simp [chartOptions, hb, hp]

example : uniqueRows exTable ["A"] = [[Value.int 2, Value.str "y"]] := by decide
example : (duplicateRows exTable ["A"]).length = 3 := by decide
example : dupGroups exTable ["A"] = [([Value.int 1], 3)] := by decide
example : wholeRowDuplicateCount exPair = 1 := by decide
example : allMembersDuplicateCount exPair = 2 := by decide
example : (duplicateRows exNa ["A"]).length = 2 := by decide
example : sumCounts (dupGroups exNa ["A"]) = 0 := by decide

end AnomApp
